import Mathlib

/-!
# Verification of the card-image text pipeline

Shallow embedding of the line wrapper, layout engine, scene builder and
renderer front-end found in `api/make.js`, `api/diag.js` (third document:
the resvg-based `api/make.js`) and the unnamed variant `part_002`.

JavaScript strings are modelled as lists of characters (`Str`); JS numbers
appearing in the layout arithmetic are modelled as rationals (`ℚ`), with
`Math.round x = ⌊x + 1/2⌋` and `Math.floor = ⌊·⌋`.
-/

/-- A JS string, as its sequence of UTF-16 units (all characters appearing
in this code base are in the BMP, so one `Char` per unit). -/
abbrev Str : Type := List Char

namespace Card

/-- Characters matched by the JS regexp `\s` that can occur here
(ASCII whitespace; the exotic Unicode space separators never appear in
the repository's inputs of interest). -/
def isWs (c : Char) : Bool :=
  c = ' ' || c = '\t' || c = '\n' || c = '\r'

/-- `String.prototype.trim`: drop whitespace from both ends. -/
def jsTrim (s : Str) : Str :=
  ((s.dropWhile isWs).reverse.dropWhile isWs).reverse

/-- Helper for splitting on whitespace runs: `cur` is the current word,
reversed. Models the behaviour of `.split(/\s+/)` on a string with no
leading whitespace. -/
def wordsAux : Str → Str → List Str
  | [], cur => if cur = [] then [] else [cur.reverse]
  | c :: rest, cur =>
    if isWs c then
      (if cur = [] then wordsAux rest [] else cur.reverse :: wordsAux rest [])
    else wordsAux rest (c :: cur)

/-- `String(text || '').trim().split(/\s+/)` — note the JS quirk that
splitting the empty string yields `[""]`, a one-element list holding the
empty string. -/
def jsWords (text : Str) : List Str :=
  let t := jsTrim text
  if t = [] then [[]] else wordsAux t []

/-- The word list of a title with whitespace normalized away (no phantom
`""` entry for blank titles). -/
def realWords (text : Str) : List Str :=
  wordsAux (jsTrim text) []

/-- Join strings with single spaces (`Array.prototype.join(' ')` /
the template `` `${line} ${w}` `` glue). -/
def joinSp : List Str → Str
  | [] => []
  | [l] => l
  | l :: ls => l ++ ' ' :: joinSp ls

/-- A title with leading/trailing whitespace removed and internal
whitespace runs collapsed to single spaces. -/
def normalize (text : Str) : Str :=
  joinSp (realWords text)

/-- A word as produced by whitespace splitting: nonempty and free of
whitespace characters. -/
def goodWord (w : Str) : Prop := w ≠ [] ∧ ∀ c ∈ w, isWs c = false

/-- A display line as built by the wrapper: some nonempty sequence of
words joined by single spaces. -/
def goodLine (l : Str) : Prop :=
  ∃ ws, ws ≠ [] ∧ (∀ w ∈ ws, goodWord w) ∧ l = joinSp ws

/-- The loop body of `wrapArabic` (`api/make.js` lines 16–20): fold over
the words, accumulating `lines` (committed lines) and `line` (the line
being built).  Returns the state at loop exit (`break` included). -/
def wrapGo (maxPerLine : Nat) (maxLines : Nat) :
    List Str → List Str → Str → List Str × Str
  | [], lines, line => (lines, line)
  | w :: rest, lines, line =>
    let t := if line ≠ [] then line ++ ' ' :: w else w
    if t.length ≤ maxPerLine then wrapGo maxPerLine maxLines rest lines t
    else
      let lines' := if line ≠ [] then lines ++ [line] else lines
      if (lines'.length : Int) = (maxLines : Int) - 1 then (lines', w)
      else wrapGo maxPerLine maxLines rest lines' w

/-- `wrapArabic(text, maxPerLine, maxLines = 3)` from `api/make.js`
lines 12–23 (identical to `wrap` in the resvg `api/make.js` document of
`src/api/diag.js`, lines 209–219, and to the copies in the unnamed
parts). -/
def wrapArabic (text : Str) (maxPerLine : Nat) (maxLines : Nat := 3) :
    List Str :=
  let r := wrapGo maxPerLine maxLines (jsWords text) [] []
  if r.2 ≠ [] ∧ r.1.length < maxLines then r.1 ++ [r.2] else r.1

/-- `Math.round` on the JS numbers appearing here: round half toward
positive infinity. -/
def jsRound (x : ℚ) : ℤ := ⌊x + 1/2⌋

/-- `Math.floor`. -/
def jsFloor (x : ℚ) : ℤ := ⌊x⌋

/-- `esc` / the HTML escaper: replace `&`, `<`, `>` by entities. -/
def esc : Str → Str
  | [] => []
  | c :: rest =>
    (if c = '&' then "&amp;".data
     else if c = '<' then "&lt;".data
     else if c = '>' then "&gt;".data
     else [c]) ++ esc rest

/-- `const lineH = Math.round(fs * lh)` (same formula in every variant). -/
def lineH (fs lh : ℚ) : ℤ := jsRound (fs * lh)

/-- `const bandH = Math.round(h * 0.24)`. -/
def bandH (h : ℚ) : ℤ := jsRound (h * (24/100))

/-- `const bandY = Math.round(h * 0.60)`. -/
def bandY (h : ℚ) : ℤ := jsRound (h * (60/100))

/-- `const cx = Math.floor(w / 2)`. -/
def cx (w : ℚ) : ℤ := jsFloor (w / 2)

/-- `Math.max(16, Math.round(w / 36))`, the per-line character budget
derived from the canvas width (all `buildSVG` variants). -/
def maxCharsPerLine (w : ℚ) : Nat := (max 16 (jsRound (w / 36))).toNat

/-! Layout of the resvg-based `api/make.js` document inside
`src/api/diag.js` (lines 229–281): absolute per-line `y` coordinates. -/

namespace Diag

/-- `const blockH = (lines.length - 1) * lineH`. -/
def blockH (n : ℕ) (fs lh : ℚ) : ℤ := ((n : ℤ) - 1) * lineH fs lh

/-- `const baseY = Math.round(bandY + bandH/2 - blockH/2)`. -/
def baseY (h fs lh : ℚ) (n : ℕ) : ℤ :=
  jsRound ((bandY h : ℚ) + (bandH h : ℚ) / 2 - (blockH n fs lh : ℚ) / 2)

/-- The `y` of the `i`-th headline `tspan`: `baseY + i * lineH`. -/
def lineY (h fs lh : ℚ) (n : ℕ) (i : ℕ) : ℤ :=
  baseY h fs lh n + (i : ℤ) * lineH fs lh

/-- `const lastLineY = baseY + (lines.length - 1) * lineH`. -/
def lastLineY (h fs lh : ℚ) (n : ℕ) : ℤ :=
  baseY h fs lh n + ((n : ℤ) - 1) * lineH fs lh

def brandGapTop : ℤ := 50
def brand1Size : ℤ := 22
def brand2Size : ℤ := 20
def brandGap : ℤ := 6

/-- `const brandYStart = lastLineY + brandGapTop`. -/
def brandYStart (h fs lh : ℚ) (n : ℕ) : ℤ :=
  lastLineY h fs lh n + brandGapTop

/-- The `y` of the second brand line: `brandYStart + brand1Size + brandGap`. -/
def brandY2 (h fs lh : ℚ) (n : ℕ) : ℤ :=
  brandYStart h fs lh n + brand1Size + brandGap

/-- Vertical midpoint of the rendered text block: first baseline plus half
the block height. -/
def blockMid (h fs lh : ℚ) (n : ℕ) : ℚ :=
  (baseY h fs lh n : ℚ) + (blockH n fs lh : ℚ) / 2

end Diag

/-! Layout of `src/api/make.js` (lines 40–86), which positions the lines
with a text anchor at `cy` and relative `dy` offsets. -/

namespace Make

/-- `const cy = Math.floor(bandY + bandH / 2)`. -/
def cy (h : ℚ) : ℤ := jsFloor ((bandY h : ℚ) + (bandH h : ℚ) / 2)

/-- `const startDy = -((lines.length - 1) * lineH) / 2`. -/
def startDy (n : ℕ) (fs lh : ℚ) : ℚ :=
  -(((n : ℚ) - 1) * (lineH fs lh : ℚ)) / 2

/-- Absolute baseline of the `i`-th headline line: the anchor `cy` plus the
accumulated `dy` offsets. -/
def baselineQ (h fs lh : ℚ) (n : ℕ) (i : ℕ) : ℚ :=
  (cy h : ℚ) + startDy n fs lh + (i : ℚ) * (lineH fs lh : ℚ)

/-- Absolute baseline of the last headline line. -/
def lastBaseline (h fs lh : ℚ) (n : ℕ) : ℚ :=
  (cy h : ℚ) + startDy n fs lh + ((n : ℚ) - 1) * (lineH fs lh : ℚ)

/-- `const brandYStart = cy + (lines.length * lineH / 2) + brandGapTop`. -/
def brandYStart (h fs lh : ℚ) (n : ℕ) : ℚ :=
  (cy h : ℚ) + (n : ℚ) * (lineH fs lh : ℚ) / 2 + 50

/-- `brandYStart + brand1Size + brandGap` (`22 + 6`). -/
def brandY2 (h fs lh : ℚ) (n : ℕ) : ℚ :=
  brandYStart h fs lh n + 22 + 6

end Make

/-- One `<tspan>` of the headline in the `api/make.js` builder:
`x`, relative `dy`, and escaped content. -/
structure Tspan where
  x : ℤ
  dy : ℚ
  content : Str
  deriving DecidableEq

/-- The vector scene emitted by `buildSVG` in `api/make.js`, as the data
that varies between requests (the literal markup text around these fields
is a fixed template).  The background `<image href>` embeds the fetched
bytes as a data URL; the scene keeps the bytes themselves. -/
structure Scene where
  w : ℚ
  h : ℚ
  bgBytes : List Nat
  bandY : ℤ
  bandH : ℤ
  headline : List Tspan
  fontSize : ℚ
  brandY1 : ℚ
  brandY2 : ℚ
  badgeTranslateX : ℚ
  debug : Bool
  deriving DecidableEq

/-- A font registered with the rasterizer: family name plus raw bytes
(`{ name: 'Tajawal', data: tajawalBytes, ... }`). -/
structure FontBinding where
  name : Str
  data : List Nat
  deriving DecidableEq

/-- Everything `renderPng` hands to the `Resvg` constructor: the scene,
the `fitTo` width, and the registered fonts (`fontFiles` and `fonts`
entries). -/
structure Rendered where
  svg : Scene
  fitToWidth : ℚ
  fonts : List FontBinding
  deriving DecidableEq

/-- `buildSVG` from `api/make.js` lines 40–55 (the same geometry is
computed by the builder in `src/unnamed/part_002`). -/
def buildSVG (bgBytes : List Nat) (title : Str) (w h fs lh : ℚ)
    (debug : Bool) : Scene :=
  let lines := wrapArabic title (maxCharsPerLine w) 3
  let lineHv := lineH fs lh
  let startDyv := Make.startDy lines.length fs lh
  let headline := lines.enum.map fun p =>
    { x := cx w, dy := if p.1 = 0 then startDyv else (lineHv : ℚ),
      content := esc p.2 : Tspan }
  let brandY1 := (Make.cy h : ℚ) + (lines.length : ℚ) * (lineHv : ℚ) / 2 + 50
  { w := w, h := h, bgBytes := bgBytes, bandY := bandY h, bandH := bandH h,
    headline := headline, fontSize := fs,
    brandY1 := brandY1, brandY2 := brandY1 + 22 + 6,
    badgeTranslateX := w - 220, debug := debug }

/-- `Number(x) || d`: an absent parameter (`undefined`, hence `NaN`) and
the number `0` are falsy and replaced by the default. -/
def numOr (x : Option ℚ) (d : ℚ) : ℚ :=
  match x with
  | none => d
  | some v => if v = 0 then d else v

/-- `title || 'اختبار'`: the empty string is falsy and replaced by the
placeholder. -/
def strOr (t : Option Str) (d : Str) : Str :=
  match t with
  | none => d
  | some s => if s = [] then d else s

/-- The default headline placeholder `'اختبار'`. -/
def defaultTitle : Str := "اختبار".data

/-- The name under which the font bytes are registered (`'Tajawal'`). -/
def tajawalName : Str := "Tajawal".data

/-- `renderPng` from `api/make.js` lines 89–121.  The two `fetch` results
(background, font) are passed in as `Except` values: a rejected fetch
propagates as an error.  Empty font bytes hit the explicit
`throw new Error('font-bytes-empty')` guard before the `Resvg`
constructor is ever reached. -/
def renderPng (bgRes fontRes : Except Str (List Nat)) (title : Option Str)
    (w fs lh : Option ℚ) (debug : Bool) : Except Str Rendered :=
  match bgRes with
  | .error e => .error e
  | .ok bgBytes =>
    match fontRes with
    | .error e => .error e
    | .ok tajawalBytes =>
      if tajawalBytes.length = 0 then .error "font-bytes-empty".data
      else
        let svg := buildSVG bgBytes (strOr title defaultTitle)
          (numOr w 1080) 1080 (numOr fs 48) (numOr lh (5/4)) debug
        .ok { svg := svg, fitToWidth := numOr w 1080,
              fonts := [⟨tajawalName, tajawalBytes⟩, ⟨tajawalName, tajawalBytes⟩] }

/-- `renderPng` from `src/unnamed/part_002` (lines ~90–130): the font
fetch failure is caught and logged (`catch(e) { console.log(...) }`), and
rendering proceeds regardless; fonts are registered only if the fetched
bytes are truthy (`tajawalBytes?.length`). -/
def renderPngPart2 (bgRes fontRes : Except Str (List Nat))
    (title : Option Str) (w fs lh : Option ℚ) (debug : Bool) :
    Except Str Rendered :=
  match bgRes with
  | .error e => .error e
  | .ok bgBytes =>
    let tajawalBytes : Option (List Nat) :=
      match fontRes with
      | .ok b => some b
      | .error _ => none
    let svg := buildSVG bgBytes (strOr title defaultTitle)
      (numOr w 1080) 1080 (numOr fs 48) (numOr lh (5/4)) debug
    let fonts : List FontBinding :=
      match tajawalBytes with
      | some b =>
        if b.length ≠ 0 then [⟨tajawalName, b⟩, ⟨tajawalName, b⟩] else []
      | none => []
    .ok { svg := svg, fitToWidth := numOr w 1080, fonts := fonts }

/-- The pixel raster produced by the native vector strategy. -/
structure Raster where
  width : ℚ
  height : ℚ
  scene : Scene
  fonts : List FontBinding
  deriving DecidableEq

/-- Modelled from the spec: the native vector rasterizer (Strategy B,
`@resvg/resvg-js`) is an external library, not code of this repository.
Per the spec it is a deterministic function of the vector scene and the
registered font bytes, and `fitTo: { mode: 'width', value: v }` scales
the scene so the output bitmap is `v` pixels wide, preserving the
aspect ratio of the scene's declared `width`/`height`. -/
def strategyB (r : Rendered) : Raster :=
  { width := r.fitToWidth,
    height := r.svg.h * r.fitToWidth / r.svg.w,
    scene := r.svg, fonts := r.fonts }

end Card

namespace Card

lemma joinSp_nil : joinSp [] = [] := rfl

lemma joinSp_single (l : Str) : joinSp [l] = l := rfl

lemma joinSp_cons_cons (l a : Str) (ls : List Str) :
    joinSp (l :: a :: ls) = l ++ ' ' :: joinSp (a :: ls) := rfl

lemma joinSp_cons_ne (l : Str) (ls : List Str) (h : ls ≠ []) :
    joinSp (l :: ls) = l ++ ' ' :: joinSp ls := by
  cases ls with
  | nil => exact absurd rfl h
  | cons a t => exact joinSp_cons_cons l a t

/-- Appending word groups corresponds to gluing their joins with a space:
`joinSp (xs ++ ys) = joinSp (joinSp xs :: ys)` for nonempty `xs`. -/
lemma joinSp_append (xs ys : List Str) (hxs : xs ≠ []) :
    joinSp (xs ++ ys) = joinSp (joinSp xs :: ys) := by
  cases ys with
  | nil => simp [joinSp_single]
  | cons y ys =>
    induction xs with
    | nil => exact absurd rfl hxs
    | cons x xs ih =>
      cases xs with
      | nil => simp [joinSp_cons_cons, joinSp_single]
      | cons x2 xs2 =>
        have h2 : x2 :: xs2 ≠ [] := by simp
        rw [List.cons_append, joinSp_cons_ne x, ih h2,
            joinSp_cons_ne (joinSp (x2 :: xs2)) (y :: ys) (by simp),
            joinSp_cons_ne x (x2 :: xs2) (by simp),
            joinSp_cons_ne (x ++ ' ' :: joinSp (x2 :: xs2)) (y :: ys) (by simp)]
        · simp
        · simp

lemma joinSp_append_single (xs : List Str) (y : Str) (hxs : xs ≠ []) :
    joinSp (xs ++ [y]) = joinSp xs ++ ' ' :: y := by
  rw [joinSp_append xs [y] hxs, joinSp_cons_ne _ _ (by simp), joinSp_single]

/-- Absorbing a freshly appended word into the head of a glue list. -/
lemma joinSp_shift (A w : Str) (cons : List Str) :
    joinSp ((A ++ ' ' :: w) :: cons) = joinSp (A :: w :: cons) := by
  cases cons with
  | nil => simp [joinSp_cons_cons, joinSp_single]
  | cons c cs =>
    rw [joinSp_cons_ne _ _ (by simp), joinSp_cons_ne A (w :: c :: cs) (by simp),
        joinSp_cons_cons w c cs]
    simp

lemma goodWord_ne_nil {w : Str} (h : goodWord w) : w ≠ [] := h.1

lemma goodLine_of_goodWord {w : Str} (h : goodWord w) : goodLine w :=
  ⟨[w], by simp, by simpa using h, rfl⟩

lemma goodLine_ne_nil {l : Str} (h : goodLine l) : l ≠ [] := by
  obtain ⟨ws, hne, hgood, rfl⟩ := h
  cases ws with
  | nil => exact absurd rfl hne
  | cons w t =>
    have hw : w ≠ [] := (hgood w (by simp)).1
    cases t with
    | nil => simpa using hw
    | cons a t2 => simp [joinSp_cons_cons]

lemma goodLine_extend {l w : Str} (hl : goodLine l) (hw : goodWord w) :
    goodLine (l ++ ' ' :: w) := by
  obtain ⟨ws, hne, hgood, rfl⟩ := hl
  refine ⟨ws ++ [w], by simp, ?_, (joinSp_append_single ws w hne).symm⟩
  intro u hu
  rcases List.mem_append.1 hu with h | h
  · exact hgood u h
  · simp at h
    subst h
    exact hw

/-- Every word emitted by the splitter is nonempty and whitespace-free. -/
lemma wordsAux_good :
    ∀ (s : Str) (cur : Str), (∀ c ∈ cur, isWs c = false) →
      ∀ w ∈ wordsAux s cur, goodWord w := by
  intro s
  induction s with
  | nil =>
    intro cur hcur w hw
    by_cases h : cur = []
    · simp [wordsAux, h] at hw
    · simp [wordsAux, h] at hw
      subst hw
      refine ⟨by simpa using h, ?_⟩
      intro c hc
      exact hcur c (List.mem_reverse.1 hc)
  | cons a s ih =>
    intro cur hcur w hw
    by_cases ha : isWs a
    · by_cases h : cur = []
      · simp [wordsAux, ha, h] at hw
        exact ih [] (by simp) w hw
      · simp [wordsAux, ha, h] at hw
        rcases hw with hw | hw
        · subst hw
          refine ⟨by simpa using h, ?_⟩
          intro c hc
          exact hcur c (List.mem_reverse.1 hc)
        · exact ih [] (by simp) w hw
    · simp only [wordsAux, ha, if_false] at hw
      refine ih (a :: cur) ?_ w hw
      intro c hc
      rcases List.mem_cons.1 hc with rfl | hc
      · simpa using ha
      · exact hcur c hc

/-- A nonempty accumulator guarantees at least one word comes out. -/
lemma wordsAux_ne_nil :
    ∀ (s : Str) (cur : Str), cur ≠ [] → wordsAux s cur ≠ [] := by
  intro s
  induction s with
  | nil => intro cur h; simp [wordsAux, h]
  | cons a s ih =>
    intro cur h
    by_cases ha : isWs a
    · simp [wordsAux, ha, h]
    · simp only [wordsAux, ha, if_false]
      exact ih (a :: cur) (by simp)

/-- `dropWhile` only removes an initial segment. -/
lemma dropWhile_sub (l : Str) : ∃ t, l = t ++ l.dropWhile isWs := by
  induction l with
  | nil => exact ⟨[], rfl⟩
  | cons a l ih =>
    by_cases ha : isWs a
    · obtain ⟨t, ht⟩ := ih
      exact ⟨a :: t, by simp [List.dropWhile_cons, ha, ← ht]⟩
    · exact ⟨[], by simp [List.dropWhile_cons, ha]⟩

/-- The head surviving `dropWhile` fails the predicate. -/
lemma dropWhile_head_not (l : Str) (c : Char) (rest : Str)
    (h : l.dropWhile isWs = c :: rest) : isWs c = false := by
  induction l with
  | nil => simp at h
  | cons a l ih =>
    by_cases ha : isWs a
    · rw [List.dropWhile_cons, if_pos ha] at h
      exact ih h
    · rw [List.dropWhile_cons, if_neg ha] at h
      cases h
      simpa using ha

/-- `jsTrim s` is an initial segment of `s.dropWhile isWs`. -/
lemma jsTrim_sub (s : Str) : ∃ t, s.dropWhile isWs = jsTrim s ++ t := by
  obtain ⟨t, ht⟩ := dropWhile_sub (s.dropWhile isWs).reverse
  refine ⟨t.reverse, ?_⟩
  have := congrArg List.reverse ht
  simpa [jsTrim] using this

/-- A nonempty trimmed title starts with a non-whitespace character. -/
lemma jsTrim_head (s : Str) (h : jsTrim s ≠ []) :
    ∃ c rest, jsTrim s = c :: rest ∧ isWs c = false := by
  obtain ⟨c, rest, hcr⟩ := List.exists_cons_of_ne_nil h
  obtain ⟨t, ht⟩ := jsTrim_sub s
  refine ⟨c, rest, hcr, ?_⟩
  rw [hcr] at ht
  exact dropWhile_head_not s c (rest ++ t) (by simpa using ht)

/-- The word list of a title with nonempty trimmed text is nonempty. -/
lemma realWords_ne_nil (s : Str) (h : jsTrim s ≠ []) : realWords s ≠ [] := by
  obtain ⟨c, rest, hcr, hc⟩ := jsTrim_head s h
  unfold realWords
  rw [hcr]
  show wordsAux (c :: rest) [] ≠ []
  simp only [wordsAux, hc, if_false]
  exact wordsAux_ne_nil rest [c] (by simp)

lemma realWords_good (s : Str) : ∀ w ∈ realWords s, goodWord w :=
  wordsAux_good (jsTrim s) [] (by simp)

/-- Scanning a whitespace-free word accumulates it wholesale. -/
lemma wordsAux_accum :
    ∀ (w : Str) (rest cur : Str), (∀ c ∈ w, isWs c = false) →
      wordsAux (w ++ rest) cur = wordsAux rest (w.reverse ++ cur) := by
  intro w
  induction w with
  | nil => intro rest cur _; simp
  | cons a w ih =>
    intro rest cur hgood
    have ha : isWs a = false := hgood a (by simp)
    show wordsAux (a :: (w ++ rest)) cur = _
    simp only [wordsAux, ha, Bool.false_eq_true, if_false]
    rw [ih rest (a :: cur) (fun c hc => hgood c (by simp [hc]))]
    congr 1
    simp

/-- The head of a join of good words is its first character,
which is not whitespace. -/
lemma joinSp_head (w : Str) (ws : List Str) (hw : goodWord w) :
    ∃ c cs, joinSp (w :: ws) = c :: cs ∧ isWs c = false := by
  obtain ⟨c, w2, rfl⟩ := List.exists_cons_of_ne_nil hw.1
  have hc : isWs c = false := hw.2 c (by simp)
  cases ws with
  | nil => exact ⟨c, w2, joinSp_single _, hc⟩
  | cons a t =>
    exact ⟨c, w2 ++ ' ' :: joinSp (a :: t), by simp [joinSp_cons_cons], hc⟩

/-- The last character of a join of good words is not whitespace. -/
lemma joinSp_rev_head (ws : List Str) (hne : ws ≠ [])
    (hgood : ∀ w ∈ ws, goodWord w) :
    ∃ c cs, (joinSp ws).reverse = c :: cs ∧ isWs c = false := by
  induction ws with
  | nil => exact absurd rfl hne
  | cons w t ih =>
    cases t with
    | nil =>
      have hw := hgood w (by simp)
      obtain ⟨c, cs, hrev⟩ := List.exists_cons_of_ne_nil
        (fun h : w.reverse = [] => hw.1 (by simpa using h))
      refine ⟨c, cs, by simpa [joinSp_single] using hrev, ?_⟩
      exact hw.2 c (List.mem_reverse.1 (by simp [hrev]))
    | cons b t2 =>
      obtain ⟨c, cs, hrev, hc⟩ := ih (by simp)
        (fun u hu => hgood u (by simp [hu]))
      refine ⟨c, cs ++ ' ' :: w.reverse, ?_, hc⟩
      rw [joinSp_cons_cons]
      simp [hrev]

/-- Trimming a join of good words changes nothing. -/
lemma jsTrim_joinSp (ws : List Str) (hne : ws ≠ [])
    (hgood : ∀ w ∈ ws, goodWord w) : jsTrim (joinSp ws) = joinSp ws := by
  obtain ⟨w, t, rfl⟩ := List.exists_cons_of_ne_nil hne
  obtain ⟨c, cs, hhead, hc⟩ := joinSp_head w t (hgood w (by simp))
  obtain ⟨c2, cs2, hrev, hc2⟩ := joinSp_rev_head (w :: t) (by simp) hgood
  unfold jsTrim
  rw [hhead, List.dropWhile_cons, if_neg (by simp [hc]), ← hhead, hrev,
      List.dropWhile_cons, if_neg (by simp [hc2]), ← hrev,
      List.reverse_reverse]

/-- Splitting a join of good words recovers exactly those words. -/
lemma wordsAux_joinSp (ws : List Str) (hne : ws ≠ [])
    (hgood : ∀ w ∈ ws, goodWord w) : wordsAux (joinSp ws) [] = ws := by
  induction ws with
  | nil => exact absurd rfl hne
  | cons w t ih =>
    have hw := hgood w (by simp)
    cases t with
    | nil =>
      rw [joinSp_single, show w = w ++ [] by simp,
          wordsAux_accum w [] [] hw.2]
      simp [wordsAux, hw.1]
    | cons b t2 =>
      rw [joinSp_cons_ne w (b :: t2) (by simp),
          wordsAux_accum w (' ' :: joinSp (b :: t2)) [] hw.2]
      have : wordsAux (' ' :: joinSp (b :: t2)) (w.reverse ++ []) =
          (w.reverse ++ []).reverse :: wordsAux (joinSp (b :: t2)) [] := by
        simp only [wordsAux]
        rw [if_pos (show isWs ' ' = true by rfl),
            if_neg (by simpa using hw.1)]
      rw [this, ih (by simp) (fun u hu => hgood u (by simp [hu]))]
      simp

/-- Splitting is invariant under whitespace normalization. -/
lemma jsWords_normalize (t : Str) : jsWords (normalize t) = jsWords t := by
  by_cases h : jsTrim t = []
  · have h1 : realWords t = [] := by
      unfold realWords
      rw [h]
      rfl
    have h2 : normalize t = [] := by simp [normalize, h1, joinSp_nil]
    rw [h2]
    unfold jsWords
    rw [h]
    rfl
  · have hne := realWords_ne_nil t h
    have hgood := realWords_good t
    have htrim : jsTrim (normalize t) = normalize t :=
      jsTrim_joinSp _ hne hgood
    have hjoin_ne : normalize t ≠ [] := by
      obtain ⟨w, s, hws⟩ := List.exists_cons_of_ne_nil hne
      obtain ⟨c, cs, hh, _⟩ := joinSp_head w s
        (hgood w (by simp [hws]))
      simp [normalize, hws, hh]
    unfold jsWords
    rw [htrim, if_neg hjoin_ne, if_neg h]
    exact wordsAux_joinSp _ hne hgood

/-- The wrapper only sees the split word list, hence is invariant under
whitespace normalization of the title. -/
lemma wrapArabic_normalize (t : Str) (mP mL : Nat) :
    wrapArabic (normalize t) mP mL = wrapArabic t mP mL := by
  unfold wrapArabic
  rw [jsWords_normalize]

/-- One unfolded iteration of the wrapping loop. -/
lemma wrapGo_cons (mP mL : Nat) (w : Str) (rest lines : List Str)
    (line : Str) :
    wrapGo mP mL (w :: rest) lines line =
      if (if line ≠ [] then line ++ ' ' :: w else w).length ≤ mP then
        wrapGo mP mL rest lines (if line ≠ [] then line ++ ' ' :: w else w)
      else
        if (((if line ≠ [] then lines ++ [line] else lines).length : Int) =
            (mL : Int) - 1) then
          ((if line ≠ [] then lines ++ [line] else lines), w)
        else wrapGo mP mL rest (if line ≠ [] then lines ++ [line] else lines) w :=
  rfl

/-- Committing a longer current line changes the join by one glued word. -/
lemma joinSp_append_word (lines : List Str) (line w : Str) :
    joinSp (lines ++ [line ++ ' ' :: w]) =
      joinSp (lines ++ [line]) ++ ' ' :: w := by
  cases lines with
  | nil => simp [joinSp_single]
  | cons l ls =>
    rw [joinSp_append_single (l :: ls) _ (by simp),
        joinSp_append_single (l :: ls) _ (by simp)]
    simp

/-- The main loop invariant: the loop consumes an initial segment `cons`
of its word list, the final state holds exactly the previous content glued
with `cons`, every line is well formed, and an early `break` (leaving
`rem ≠ []` unconsumed) happens only with `maxLines - 1` committed lines. -/
lemma wrapGo_spec (mP mL : Nat) :
    ∀ (ws lines : List Str) (line : Str),
      (∀ w ∈ ws, goodWord w) → goodLine line → (∀ l ∈ lines, goodLine l) →
      ∃ cons rem,
        ws = cons ++ rem ∧
        goodLine (wrapGo mP mL ws lines line).2 ∧
        (∀ l ∈ (wrapGo mP mL ws lines line).1, goodLine l) ∧
        joinSp ((wrapGo mP mL ws lines line).1 ++
            [(wrapGo mP mL ws lines line).2]) =
          joinSp (joinSp (lines ++ [line]) :: cons) ∧
        (rem ≠ [] →
          ((wrapGo mP mL ws lines line).1.length : Int) = (mL : Int) - 1) := by
  intro ws
  induction ws with
  | nil =>
    intro lines line _ hline hlines
    exact ⟨[], [], by simp, hline, hlines, (joinSp_single _).symm, by simp⟩
  | cons w rest ih =>
    intro lines line hws hline hlines
    have hw : goodWord w := hws w (by simp)
    have hrest : ∀ u ∈ rest, goodWord u := fun u hu => hws u (by simp [hu])
    have hlne : line ≠ [] := goodLine_ne_nil hline
    rw [wrapGo_cons]
    simp only [eq_true hlne, if_true]
    by_cases hfit : (line ++ ' ' :: w).length ≤ mP
    · rw [if_pos hfit]
      obtain ⟨cons, rem, hsplit, h2, h3, h4, h5⟩ :=
        ih lines (line ++ ' ' :: w) hrest (goodLine_extend hline hw) hlines
      refine ⟨w :: cons, rem, by simp [hsplit], h2, h3, ?_, h5⟩
      rw [h4, joinSp_append_word, joinSp_shift]
    · rw [if_neg hfit]
      by_cases hbrk : (((lines ++ [line]).length : Int) = (mL : Int) - 1)
      · rw [if_pos hbrk]
        refine ⟨[w], rest, by simp, goodLine_of_goodWord hw, ?_, ?_,
          fun _ => by simpa using hbrk⟩
        · intro l hl
          rcases List.mem_append.1 hl with h | h
          · exact hlines l h
          · simp at h
            subst h
            exact hline
        · simpa using joinSp_append (lines ++ [line]) [w] (by simp)
      · rw [if_neg hbrk]
        have hlines2 : ∀ l ∈ lines ++ [line], goodLine l := by
          intro l hl
          rcases List.mem_append.1 hl with h | h
          · exact hlines l h
          · simp at h
            subst h
            exact hline
        obtain ⟨cons, rem, hsplit, h2, h3, h4, h5⟩ :=
          ih (lines ++ [line]) w hrest (goodLine_of_goodWord hw) hlines2
        refine ⟨w :: cons, rem, by simp [hsplit], h2, h3, ?_, h5⟩
        rw [h4, joinSp_append_single (lines ++ [line]) w (by simp)]
        exact joinSp_shift _ _ _

/-- Inside the loop the committed-line count stays below `maxLines`
whenever it starts at least two below it (so in particular from the
initial empty state with `maxLines ≥ 2`). -/
lemma wrapGo_len (mP mL : Nat) :
    ∀ (ws lines : List Str) (line : Str), lines.length + 1 < mL →
      (wrapGo mP mL ws lines line).1.length < mL := by
  intro ws
  induction ws with
  | nil =>
    intro lines line h
    simpa using (by omega : lines.length < mL)
  | cons w rest ih =>
    intro lines line h
    rw [wrapGo_cons]
    by_cases hfit :
        (if line ≠ [] then line ++ ' ' :: w else w).length ≤ mP
    · rw [if_pos hfit]
      exact ih lines _ h
    · rw [if_neg hfit]
      have hlen : (if line ≠ [] then lines ++ [line] else lines).length ≤
          lines.length + 1 := by
        by_cases hl : line ≠ [] <;> simp [hl]
      by_cases hbrk :
          (((if line ≠ [] then lines ++ [line] else lines).length : Int) =
            (mL : Int) - 1)
      · rw [if_pos hbrk]
        show (if line ≠ [] then lines ++ [line] else lines).length < mL
        omega
      · rw [if_neg hbrk]
        exact ih _ w (by omega)

/-- With `maxLines ≠ 1` the first word never triggers the break, so the
loop restarts from the first word as current line. -/
lemma wrapGo_start (mP mL : Nat) (w : Str) (rest : List Str)
    (h : mL ≠ 1) :
    wrapGo mP mL (w :: rest) [] [] = wrapGo mP mL rest [] w := by
  rw [wrapGo_cons]
  have h0 : ¬ (((if ([] : Str) ≠ [] then ([] : List Str) ++ [[]]
      else []).length : Int) = (mL : Int) - 1) := by
    simp only [ne_eq, not_true_eq_false, if_false]
    simp
    omega
  simp only [ne_eq, not_true_eq_false, if_false]
  by_cases hfit : w.length ≤ mP
  · rw [if_pos hfit]
  · rw [if_neg hfit, if_neg (by simpa using h0)]

/-- For any `maxLines`, the first step either restarts from the first word
or breaks immediately with it. -/
lemma wrapGo_start_or (mP mL : Nat) (w : Str) (rest : List Str) :
    wrapGo mP mL (w :: rest) [] [] = wrapGo mP mL rest [] w ∨
      wrapGo mP mL (w :: rest) [] [] = ([], w) := by
  rw [wrapGo_cons]
  simp only [ne_eq, not_true_eq_false, if_false]
  by_cases hfit : w.length ≤ mP
  · rw [if_pos hfit]
    exact Or.inl rfl
  · rw [if_neg hfit]
    by_cases hbrk : ((([] : List Str).length : Int) = (mL : Int) - 1)
    · rw [if_pos hbrk]
      exact Or.inr rfl
    · rw [if_neg hbrk]
      exact Or.inl rfl

/-- A blank (empty or all-whitespace) title wraps to the empty list of
lines — not to a single empty line. -/
lemma wrap_empty (t : Str) (mP mL : Nat) (h : jsTrim t = []) :
    wrapArabic t mP mL = [] := by
  have hw : jsWords t = [[]] := by simp [jsWords, h]
  unfold wrapArabic
  rw [hw]
  simp [wrapGo]

/-- For a non-blank title the split word list is the real word list. -/
lemma jsWords_of_ne (title : Str) (h : jsTrim title ≠ []) :
    jsWords title = realWords title := by
  unfold jsWords
  rw [if_neg h]
  rfl

/-- Every line the wrapper outputs is a space-join of good words. -/
lemma wrap_good_lines (title : Str) (mP mL : Nat) :
    ∀ l ∈ wrapArabic title mP mL, goodLine l := by
  by_cases h : jsTrim title = []
  · rw [wrap_empty title mP mL h]
    simp
  · obtain ⟨w, rest, hw⟩ :=
      List.exists_cons_of_ne_nil (realWords_ne_nil title h)
    have hgood := realWords_good title
    have hjsw : jsWords title = w :: rest := by rw [jsWords_of_ne title h, hw]
    have hwG : goodWord w := hgood w (by simp [hw])
    have hrestG : ∀ u ∈ rest, goodWord u :=
      fun u hu => hgood u (by simp [hw, hu])
    unfold wrapArabic
    rw [hjsw]
    rcases wrapGo_start_or mP mL w rest with hS | hS
    · rw [hS]
      obtain ⟨cons, rem, _, h2, h3, _, _⟩ :=
        wrapGo_spec mP mL rest [] w hrestG (goodLine_of_goodWord hwG)
          (by simp)
      intro l hl
      by_cases hc : (wrapGo mP mL rest [] w).2 ≠ [] ∧
          (wrapGo mP mL rest [] w).1.length < mL
      · rw [if_pos hc] at hl
        rcases List.mem_append.1 hl with h' | h'
        · exact h3 l h'
        · simp at h'
          subst h'
          exact h2
      · rw [if_neg hc] at hl
        exact h3 l hl
    · rw [hS]
      intro l hl
      by_cases hc : (([], w) : List Str × Str).2 ≠ [] ∧
          (([], w) : List Str × Str).1.length < mL
      · rw [if_pos hc] at hl
        simp at hl
        subst hl
        exact goodLine_of_goodWord hwG
      · rw [if_neg hc] at hl
        simp at hl

/-- With `maxLines ≥ 2` the wrapper never emits more than `maxLines`
lines. -/
lemma wrap_len_le (title : Str) (mP mL : Nat) (hmL : 2 ≤ mL) :
    (wrapArabic title mP mL).length ≤ mL := by
  by_cases h : jsTrim title = []
  · rw [wrap_empty title mP mL h]
    simp
  · obtain ⟨w, rest, hw⟩ :=
      List.exists_cons_of_ne_nil (realWords_ne_nil title h)
    have hjsw : jsWords title = w :: rest := by rw [jsWords_of_ne title h, hw]
    unfold wrapArabic
    rw [hjsw, wrapGo_start mP mL w rest (by omega)]
    have hlen := wrapGo_len mP mL rest [] w (by simp; omega)
    by_cases hc : (wrapGo mP mL rest [] w).2 ≠ [] ∧
        (wrapGo mP mL rest [] w).1.length < mL
    · rw [if_pos hc]
      simp
      omega
    · rw [if_neg hc]
      omega

/-- The full behaviour of the wrapper at `maxLines = 3` on a non-blank
title: one to three lines come out, their joined content is an initial
segment of the title's word list, and words are only dropped when all
three lines are used. -/
lemma wrap3_spec (title : Str) (mP : Nat) (h : jsTrim title ≠ []) :
    ∃ cons rem, realWords title = cons ++ rem ∧
      joinSp (wrapArabic title mP 3) = joinSp cons ∧
      1 ≤ (wrapArabic title mP 3).length ∧
      (wrapArabic title mP 3).length ≤ 3 ∧
      ((wrapArabic title mP 3).length ≤ 2 → rem = []) := by
  obtain ⟨w, rest, hw⟩ :=
    List.exists_cons_of_ne_nil (realWords_ne_nil title h)
  have hgood := realWords_good title
  have hjsw : jsWords title = w :: rest := by rw [jsWords_of_ne title h, hw]
  have hwG : goodWord w := hgood w (by simp [hw])
  have hrestG : ∀ u ∈ rest, goodWord u :=
    fun u hu => hgood u (by simp [hw, hu])
  unfold wrapArabic
  rw [hjsw, wrapGo_start mP 3 w rest (by omega)]
  obtain ⟨cons, rem, hsplit, h2, h3, h4, h5⟩ :=
    wrapGo_spec mP 3 rest [] w hrestG (goodLine_of_goodWord hwG) (by simp)
  have hlen := wrapGo_len mP 3 rest [] w (by simp)
  have h2ne : (wrapGo mP 3 rest [] w).2 ≠ [] := goodLine_ne_nil h2
  rw [if_pos ⟨h2ne, hlen⟩]
  refine ⟨w :: cons, rem, by rw [hw, hsplit]; simp, ?_, by simp, by simp; omega,
    ?_⟩
  · rw [h4]
    have : joinSp (([] : List Str) ++ [w]) = w := by simp [joinSp_single]
    rw [this]
  · intro hle
    by_contra hrem
    have hbrk := h5 hrem
    simp at hle
    omega

lemma jsRound_le (x : ℚ) : (jsRound x : ℚ) ≤ x + 1/2 := by
  unfold jsRound
  exact_mod_cast Int.floor_le (x + 1/2)

lemma lt_jsRound (x : ℚ) : x - 1/2 < (jsRound x : ℚ) := by
  unfold jsRound
  have := Int.lt_floor_add_one (x + 1/2)
  push_cast at this ⊢
  linarith

end Card


namespace Card

/-- C1 (counterexample): the claim fails as stated — joining the wrap
output does not always reproduce the whitespace-normalized title.  With
the minimal deployed budget of 16 characters and four 16-character words,
the fourth word is dropped (the loop breaks after committing two lines,
discarding the words that follow the overflow word). -/
theorem c1_counterexample :
    ¬ (joinSp (wrapArabic
        "aaaaaaaaaaaaaaaa bbbbbbbbbbbbbbbb cccccccccccccccc dddddddddddddddd".data
        16 3) =
      normalize
        "aaaaaaaaaaaaaaaa bbbbbbbbbbbbbbbb cccccccccccccccc dddddddddddddddd".data) := by
  decide

/-- C1 (amended): for every title and `maxLines = 3`, the wrap output has
at most 3 lines; it has at least 1 line exactly when the trimmed title is
nonempty (a blank title yields zero lines, not one); joining the output
lines with single spaces reproduces an initial segment of the
whitespace-normalized title, with no word duplicated or reordered; words
can only be dropped (not merged into the last line) and only when the
output already uses all 3 lines. -/
theorem c1_wrap_initial_segment (title : Str) (mP : Nat) :
    (wrapArabic title mP 3).length ≤ 3 ∧
    (jsTrim title = [] → wrapArabic title mP 3 = []) ∧
    (jsTrim title ≠ [] → 1 ≤ (wrapArabic title mP 3).length) ∧
    ∃ cons rem, realWords title = cons ++ rem ∧
      joinSp (wrapArabic title mP 3) = joinSp cons ∧
      ((wrapArabic title mP 3).length ≤ 2 → rem = []) := by
  by_cases h : jsTrim title = []
  · have he := wrap_empty title mP 3 h
    refine ⟨by rw [he]; simp, fun _ => he, fun hc => absurd h hc,
      [], [], ?_, by rw [he], fun _ => rfl⟩
    show realWords title = [] ++ []
    simp [realWords, h, wordsAux]
  · obtain ⟨cons, rem, h1, h2, h3, h4, h5⟩ := wrap3_spec title mP h
    exact ⟨h4, fun hc => absurd hc h, fun _ => h3, cons, rem, h1, h2, h5⟩

/-- C1 witness: the amended statement instantiated at a concrete title. -/
theorem c1_witness :
    (wrapArabic "ab cd".data 30 3).length ≤ 3 ∧
    (jsTrim "ab cd".data = [] → wrapArabic "ab cd".data 30 3 = []) ∧
    (jsTrim "ab cd".data ≠ [] → 1 ≤ (wrapArabic "ab cd".data 30 3).length) ∧
    ∃ cons rem, realWords "ab cd".data = cons ++ rem ∧
      joinSp (wrapArabic "ab cd".data 30 3) = joinSp cons ∧
      ((wrapArabic "ab cd".data 30 3).length ≤ 2 → rem = []) :=
  c1_wrap_initial_segment "ab cd".data 30

/-- C2 (counterexample): the empty title does not wrap to one empty line;
it wraps to the empty list of lines. -/
theorem c2_counterexample : (wrapArabic "".data 30 3).length ≠ 1 := by
  decide

/-- C2 (amended): a blank (empty or whitespace-only) title yields zero
lines; the scene builder still handles this without error, producing an
empty headline block whose brand caption sits at `cy + 50`. -/
theorem c2_blank_title (title : Str) (mP mL : Nat) (h : jsTrim title = []) :
    wrapArabic title mP mL = [] ∧
    ∀ (bg : List Nat) (w fs lh : ℚ) (dbg : Bool),
      (buildSVG bg title w 1080 fs lh dbg).headline = [] ∧
      (buildSVG bg title w 1080 fs lh dbg).brandY1 = (Make.cy 1080 : ℚ) + 50 := by
  refine ⟨wrap_empty _ _ _ h, ?_⟩
  intro bg w fs lh dbg
  unfold buildSVG
  rw [wrap_empty _ _ _ h]
  constructor
  · simp
  · simp

/-- C2 witness: the amended statement instantiated at the empty title. -/
theorem c2_witness :
    wrapArabic "".data 30 3 = [] ∧
    ∀ (bg : List Nat) (w fs lh : ℚ) (dbg : Bool),
      (buildSVG bg "".data w 1080 fs lh dbg).headline = [] ∧
      (buildSVG bg "".data w 1080 fs lh dbg).brandY1 =
        (Make.cy 1080 : ℚ) + 50 :=
  c2_blank_title "".data 30 3 rfl

/-- C3 (counterexample): with `canvasWidth = 1080` the per-line budget is
indeed `max(16, round(1080/36)) = 30`, but the example title wraps to
exactly 2 lines under that budget, not 3. -/
theorem c3_counterexample :
    maxCharsPerLine 1080 = 30 ∧
    (wrapArabic "عاجل خبر الآن اختبار الكتابة الطويلة جدا على البطاقة".data
      30 3).length = 2 ∧ (2 : Nat) ≠ 3 := by
  refine ⟨?_, by decide, by decide⟩
  norm_num [maxCharsPerLine, jsRound]
  decide

/-- C3 (amended): the default budget at width 1080 is 30 characters per
line, and the example title wraps under it to exactly these 2 lines. -/
theorem c3_example_wrap :
    maxCharsPerLine 1080 = 30 ∧
    wrapArabic "عاجل خبر الآن اختبار الكتابة الطويلة جدا على البطاقة".data
      30 3 =
      ["عاجل خبر الآن اختبار الكتابة".data,
       "الطويلة جدا على البطاقة".data] := by
  refine ⟨?_, by decide⟩
  norm_num [maxCharsPerLine, jsRound]
  decide

end Card

namespace Card

/-- C4 (counterexample): the first baseline does not equal the exact
(unrounded) expression `bandTop + bandHeight/2 - (n-1)*lineHeight/2` — at
the default height 1080 the band height 259 is odd and the code rounds
777.5 up to 778; and for height 2 (band height 0) the block midpoint falls
outside the band. -/
theorem c4_counterexample :
    ¬ ((Diag.baseY 1080 48 (5/4) 1 : ℚ) =
        (bandY 1080 : ℚ) + (bandH 1080 : ℚ) / 2 -
          (Diag.blockH 1 48 (5/4) : ℚ) / 2) ∧
    ¬ (Diag.blockMid 2 1 1 2 ≤ (bandY 2 : ℚ) + (bandH 2 : ℚ)) := by
  constructor
  · norm_num [Diag.baseY, Diag.blockH, bandY, bandH, lineH, jsRound]
  · norm_num [Diag.blockMid, Diag.baseY, Diag.blockH, bandY, bandH, lineH,
      jsRound]

/-- C4 (amended): baselines are evenly spaced by
`round(fontSizePx * lineHeightFactor)` and strictly increase whenever that
spacing is at least 1; the first baseline is the rounded value
`round(bandTop + bandHeight/2 - blockHeight/2)`; the block midpoint is
within 1px of the band midpoint, and lies inside the band whenever the
band height is at least 1. -/
theorem c4_layout (h fs lh : ℚ) (n : ℕ) (hn1 : 1 ≤ n) (hn3 : n ≤ 3) :
    (∀ i : ℕ, Diag.lineY h fs lh n (i + 1) - Diag.lineY h fs lh n i =
      lineH fs lh) ∧
    (1 ≤ lineH fs lh →
      ∀ i : ℕ, Diag.lineY h fs lh n i < Diag.lineY h fs lh n (i + 1)) ∧
    Diag.baseY h fs lh n =
      jsRound ((bandY h : ℚ) + (bandH h : ℚ) / 2 -
        (Diag.blockH n fs lh : ℚ) / 2) ∧
    |Diag.blockMid h fs lh n - ((bandY h : ℚ) + (bandH h : ℚ) / 2)| ≤ 1 ∧
    (1 ≤ bandH h →
      (bandY h : ℚ) ≤ Diag.blockMid h fs lh n ∧
      Diag.blockMid h fs lh n ≤ (bandY h : ℚ) + (bandH h : ℚ)) := by
  have hsp : ∀ i : ℕ, Diag.lineY h fs lh n (i + 1) - Diag.lineY h fs lh n i =
      lineH fs lh := by
    intro i
    unfold Diag.lineY
    push_cast
    ring
  have hle := jsRound_le ((bandY h : ℚ) + (bandH h : ℚ) / 2 -
    (Diag.blockH n fs lh : ℚ) / 2)
  have hlt := lt_jsRound ((bandY h : ℚ) + (bandH h : ℚ) / 2 -
    (Diag.blockH n fs lh : ℚ) / 2)
  have hmid : Diag.blockMid h fs lh n =
      (Diag.baseY h fs lh n : ℚ) + (Diag.blockH n fs lh : ℚ) / 2 := rfl
  refine ⟨hsp, ?_, rfl, ?_, ?_⟩
  · intro hL i
    have := hsp i
    omega
  · rw [hmid]
    show |(Diag.baseY h fs lh n : ℚ) + (Diag.blockH n fs lh : ℚ) / 2 -
      ((bandY h : ℚ) + (bandH h : ℚ) / 2)| ≤ 1
    rw [abs_le]
    unfold Diag.baseY at *
    constructor <;> linarith
  · intro hband
    have hbq : (1 : ℚ) ≤ (bandH h : ℚ) := by exact_mod_cast hband
    rw [hmid]
    unfold Diag.baseY at *
    constructor <;> linarith

/-- C4 witness: the rounded-first-baseline equation at the deployed
parameters. -/
theorem c4_witness :
    Diag.baseY 1080 48 (5/4) 2 =
      jsRound ((bandY 1080 : ℚ) + (bandH 1080 : ℚ) / 2 -
        (Diag.blockH 2 48 (5/4) : ℚ) / 2) :=
  (c4_layout 1080 48 (5/4) 2 (by norm_num) (by norm_num)).2.2.1

/-- C5 (counterexample): the second brand-caption baseline sits
`brand1Size + brandGap = 28` pixels below the first, not 6. -/
theorem c5_counterexample :
    Diag.brandY2 1080 48 (5/4) 1 - Diag.brandYStart 1080 48 (5/4) 1 = 28 ∧
    (28 : ℤ) ≠ 6 := by
  constructor
  · unfold Diag.brandY2 Diag.brand1Size Diag.brandGap
    ring
  · decide

/-- C5 (amended): in the absolute-position builder (`diag.js` document)
the first brand baseline sits exactly 50px below the last headline
baseline and the second sits `22 + 6 = 28`px below the first; in the
`dy`-based builder (`make.js`) the first brand baseline sits
`50 + lineHeight/2` below the last headline baseline. -/
theorem c5_brand_gaps (h fs lh : ℚ) (n : ℕ) :
    Diag.brandYStart h fs lh n - Diag.lastLineY h fs lh n = 50 ∧
    Diag.brandY2 h fs lh n - Diag.brandYStart h fs lh n = 28 ∧
    Make.brandYStart h fs lh n - Make.lastBaseline h fs lh n =
      50 + (lineH fs lh : ℚ) / 2 := by
  refine ⟨?_, ?_, ?_⟩
  · unfold Diag.brandYStart Diag.brandGapTop
    ring
  · unfold Diag.brandY2 Diag.brand1Size Diag.brandGap
    ring
  · unfold Make.brandYStart Make.lastBaseline Make.startDy
    ring

/-- C6 (counterexample): the `part_002` renderer variant does not fail
when the font fetch fails — it proceeds to rasterization with an empty
registered-font list. -/
theorem c6_counterexample :
    (renderPngPart2 (Except.ok [7]) (Except.error "font-fetch-failed".data)
      none none none none false).isOk = true ∧
    (renderPngPart2 (Except.ok [7]) (Except.error "font-fetch-failed".data)
      none none none none false).map Rendered.fonts = Except.ok [] :=
  ⟨rfl, rfl⟩

/-- C6 (amended): the `api/make.js` renderer fails before any
rasterization when the font fetch fails or returns zero bytes (the
`font-bytes-empty` guard precedes the `Resvg` construction); the
`part_002` variant, by contrast, catches the failed fetch and proceeds
with no registered fonts. -/
theorem c6_font_guard (bgBytes : List Nat) (e : Str) (title : Option Str)
    (w fs lh : Option ℚ) (dbg : Bool) :
    renderPng (Except.ok bgBytes) (Except.error e) title w fs lh dbg =
      Except.error e ∧
    renderPng (Except.ok bgBytes) (Except.ok []) title w fs lh dbg =
      Except.error "font-bytes-empty".data ∧
    (renderPngPart2 (Except.ok bgBytes) (Except.error e) title w fs lh
      dbg).map Rendered.fonts = Except.ok [] :=
  ⟨rfl, rfl, rfl⟩

/-- C7 (counterexample): requesting `canvasWidth = 0` does not produce an
error of any kind — the render succeeds, silently substituting the
default width 1080. -/
theorem c7_counterexample :
    (renderPng (Except.ok [7]) (Except.ok [1]) none (some 0) none none
      false).isOk = true ∧
    (renderPng (Except.ok [7]) (Except.ok [1]) none (some 0) none none
      false).map (fun r => r.svg.w) = Except.ok 1080 :=
  ⟨rfl, rfl⟩

/-- C7 (amended): `canvasWidth = 0` neither raises an error nor divides
by zero: `Number(w) || WIDTH` treats 0 as falsy, so the scene and the
`fitTo` width are both built with the default 1080 and rendering
proceeds. -/
theorem c7_zero_width_defaults (bgBytes fontBytes : List Nat)
    (hf : fontBytes ≠ []) (title : Option Str) (fs lh : Option ℚ)
    (dbg : Bool) :
    (renderPng (Except.ok bgBytes) (Except.ok fontBytes) title (some 0) fs
      lh dbg).map (fun r => (r.svg.w, r.fitToWidth)) =
      Except.ok (1080, 1080) := by
  have hlen : ¬ fontBytes.length = 0 := by simpa using hf
  simp [renderPng, hlen, numOr, buildSVG, Except.map]

/-- C7 witness: the amended statement at concrete bytes. -/
theorem c7_witness :
    (renderPng (Except.ok [7]) (Except.ok [1]) none (some 0) none none
      false).map (fun r => (r.svg.w, r.fitToWidth)) =
      Except.ok (1080, 1080) :=
  c7_zero_width_defaults [7] [1] (by decide) none none none false

/-- C8 (confirmed): the raster produced for a request has exactly the
requested canvas width and the fixed height 1080 (so 1080×1080 under the
default width): the scene is declared at `(w, 1080)` and `fitTo` rescales
to the same `w`, leaving the height at 1080. -/
theorem c8_output_dimensions (bgBytes fontBytes : List Nat)
    (hf : fontBytes ≠ []) (title : Option Str) (w : ℚ) (hw : 0 < w)
    (fs lh : Option ℚ) (dbg : Bool) :
    (renderPng (Except.ok bgBytes) (Except.ok fontBytes) title (some w) fs
      lh dbg).map (fun r => ((strategyB r).width, (strategyB r).height)) =
      Except.ok (w, 1080) ∧
    (renderPng (Except.ok bgBytes) (Except.ok fontBytes) title none fs lh
      dbg).map (fun r => ((strategyB r).width, (strategyB r).height)) =
      Except.ok (1080, 1080) := by
  have hw0 : w ≠ 0 := ne_of_gt hw
  have hlen : ¬ fontBytes.length = 0 := by simpa using hf
  constructor
  · simp [renderPng, hlen, numOr, buildSVG, strategyB, hw0, Except.map]
  · simp [renderPng, hlen, numOr, buildSVG, strategyB, Except.map]

/-- C8 witness: concrete 540-wide request and the default-width request. -/
theorem c8_witness :
    (renderPng (Except.ok [7]) (Except.ok [1]) none (some 540) none none
      false).map (fun r => ((strategyB r).width, (strategyB r).height)) =
      Except.ok (540, 1080) ∧
    (renderPng (Except.ok [7]) (Except.ok [1]) none none none none
      false).map (fun r => ((strategyB r).width, (strategyB r).height)) =
      Except.ok (1080, 1080) :=
  c8_output_dimensions [7] [1] (by decide) none 540 (by norm_num) none none
    false

/-- C9 (confirmed): rendering is deterministic for identical inputs —
two invocations of the pipeline on the same background bytes, font bytes,
title and numeric parameters yield the same result; in particular the
built SVG scenes are identical, and hence the Strategy-B rasters are
pixel-identical. -/
theorem c9_deterministic (bgBytes fontBytes : List Nat)
    (title : Option Str) (w fs lh : Option ℚ) (dbg : Bool)
    (r1 r2 : Except Str Rendered)
    (h1 : r1 = renderPng (Except.ok bgBytes) (Except.ok fontBytes) title w
      fs lh dbg)
    (h2 : r2 = renderPng (Except.ok bgBytes) (Except.ok fontBytes) title w
      fs lh dbg) :
    r1 = r2 ∧ r1.map Rendered.svg = r2.map Rendered.svg ∧
      r1.map strategyB = r2.map strategyB := by
  subst h1
  subst h2
  exact ⟨rfl, rfl, rfl⟩

/-- C9 witness: two concrete renders of the same request coincide. -/
theorem c9_witness :
    renderPng (Except.ok [7]) (Except.ok [1]) none none none none false =
      renderPng (Except.ok [7]) (Except.ok [1]) none none none none
        false ∧
    (renderPng (Except.ok [7]) (Except.ok [1]) none none none none
      false).map Rendered.svg =
      (renderPng (Except.ok [7]) (Except.ok [1]) none none none none
        false).map Rendered.svg ∧
    (renderPng (Except.ok [7]) (Except.ok [1]) none none none none
      false).map strategyB =
      (renderPng (Except.ok [7]) (Except.ok [1]) none none none none
        false).map strategyB :=
  c9_deterministic [7] [1] none none none none false _ _ rfl rfl

/-- C10 (counterexample): with `maxLines = 1` the output can exceed
`maxLines`: the committed-line check `lines.length === maxLines - 1` is
passed over (the count jumps from 0 to 1 after the first commit was
already tested against 0), so two lines come out. -/
theorem c10_counterexample :
    ¬ ((wrapArabic "a bb cc".data 1 1).length ≤ 1) := by
  decide

/-- C10 (amended): the wrapper normalizes whitespace — wrapping a title
equals wrapping its whitespace-normalized form, and no output line has
leading or trailing whitespace, for every budget and line limit; the
output line count is bounded by `maxLines` for every `maxLines ≥ 2` (but
not for `maxLines = 1`). -/
theorem c10_whitespace_normalization (title : Str) (mP mL : Nat)
    (hmP : 1 ≤ mP) (hmL : 1 ≤ mL) :
    wrapArabic title mP mL = wrapArabic (normalize title) mP mL ∧
    (∀ l ∈ wrapArabic title mP mL,
      l.head?.all (fun c => !isWs c) = true ∧
      l.getLast?.all (fun c => !isWs c) = true) ∧
    (2 ≤ mL → (wrapArabic title mP mL).length ≤ mL) := by
  refine ⟨(wrapArabic_normalize title mP mL).symm, ?_,
    fun h2 => wrap_len_le title mP mL h2⟩
  intro l hl
  obtain ⟨ws, hne, hgood, rfl⟩ := wrap_good_lines title mP mL l hl
  obtain ⟨w, t, rfl⟩ := List.exists_cons_of_ne_nil hne
  obtain ⟨c, cs, hh, hc⟩ := joinSp_head w t (hgood w (by simp))
  obtain ⟨c2, cs2, hrev, hc2⟩ := joinSp_rev_head (w :: t) (by simp) hgood
  constructor
  · rw [hh]
    simp [hc]
  · have hlast : (joinSp (w :: t)).getLast? = some c2 := by
      rw [← List.head?_reverse, hrev]
      rfl
    rw [hlast]
    simp [hc2]

/-- C10 witness: the amended statement at a concrete title with irregular
whitespace. -/
theorem c10_witness :
    wrapArabic "a  b".data 5 3 = wrapArabic (normalize "a  b".data) 5 3 ∧
    (∀ l ∈ wrapArabic "a  b".data 5 3,
      l.head?.all (fun c => !isWs c) = true ∧
      l.getLast?.all (fun c => !isWs c) = true) ∧
    (2 ≤ 3 → (wrapArabic "a  b".data 5 3).length ≤ 3) :=
  c10_whitespace_normalization "a  b".data 5 3 (by decide) (by decide)

end Card
